import Mathlib

/-!
Verification of the Scheduling Request Interpreter and the Availability and
Slot Finder of this repository, by a shallow embedding of the relevant
source functions.

Sections follow the source files:
* calendar-service: `findAvailableSlots`
* ai-processor: `localParse` (duration, platform, timezone extraction) and
  the remote-refinement merge of `aiEnhancedParse`
* background service worker: `validateMeetingData`
* timezone-handler: `parseTimezoneFromText`, `parseRelativeTime`,
  `suggestMeetingTimes` and `calculateTimeScore`

Instants are modelled as whole minutes since a local midnight of day zero;
calendar dates as whole days.  Machine floats never enter these paths with
fractional values other than halves, so scores are modelled in `ℚ`.
-/

/-- Busy interval from the free/busy response: a start instant and an end
instant, in minutes.  Field names follow the local variables `busyStart`
and `busyEnd` of the source. -/
structure BusyInterval where
  busyStart : Nat
  busyEnd : Nat
  deriving DecidableEq

/-- Slot object pushed by `findAvailableSlots`: the source fields are
`start` and `end`; `end` is reserved here, so the second field is named
`finish`. -/
structure Slot where
  start : Nat
  finish : Nat
  deriving DecidableEq

/-- JavaScript `Date.prototype.getHours` on an instant measured in minutes:
the hour-of-day component. -/
def getHours (t : Nat) : Nat := t / 60 % 24

/-- Effect of `currentTime.setDate(currentTime.getDate() + 1)` followed by
`currentTime.setHours(9, 0, 0, 0)`: 09:00 of the following day. -/
def nextDayBusinessStart (t : Nat) : Nat := (t / 1440 + 1) * 1440 + 9 * 60

/-- The `busySlots.some(...)` test of `findAvailableSlots`: the candidate
start lies in `[busyStart, busyEnd)`, or the candidate end lies in
`(busyStart, busyEnd]`. -/
def slotConflicts (busySlots : List BusyInterval) (currentTime slotEnd : Nat) : Bool :=
  busySlots.any fun busy =>
    decide ((busy.busyStart ≤ currentTime ∧ currentTime < busy.busyEnd) ∨
      (busy.busyStart < slotEnd ∧ slotEnd ≤ busy.busyEnd))

/-- While loop of `findAvailableSlots`.  Every iteration either ends the
loop or advances `currentTime` by at least 30 minutes, so a run over the
window `[_, endDate)` makes at most `endDate` steps; the wrapper passes
fuel `endDate + 1`, which therefore reproduces every run of the source
loop exactly. -/
def findAvailableSlotsGo (busySlots : List BusyInterval) (duration endDate : Nat) :
    Nat → Nat → List Slot
  | 0, _ => []
  | fuel + 1, currentTime =>
    if currentTime < endDate then
      if 17 < getHours (currentTime + duration) then
        findAvailableSlotsGo busySlots duration endDate fuel (nextDayBusinessStart currentTime)
      else if slotConflicts busySlots currentTime (currentTime + duration) then
        findAvailableSlotsGo busySlots duration endDate fuel (currentTime + 30)
      else
        ⟨currentTime, currentTime + duration⟩ ::
          findAvailableSlotsGo busySlots duration endDate fuel (currentTime + 30)
    else []

/-- Embeds `CalendarService.findAvailableSlots(startDate, endDate, busySlots,
duration)`: scan the window in 30-minute steps starting from 09:00 of the
day of `startDate`, rolling to the next day at 09:00 whenever the hour
component of the candidate end exceeds 17. -/
def findAvailableSlots (startDate endDate : Nat) (busySlots : List BusyInterval)
    (duration : Nat) : List Slot :=
  findAvailableSlotsGo busySlots duration endDate (endDate + 1) (startDate / 1440 * 1440 + 9 * 60)

/-- ASCII lowering of one character, as `String.prototype.toLowerCase` acts
on the ASCII inputs of these paths. -/
def asciiLower (c : Char) : Char :=
  if c.isUpper then Char.ofNat (c.toNat + 32) else c

/-- Embeds `text.toLowerCase()` for ASCII text. -/
def toLowerStr (s : String) : String := String.mk (s.data.map asciiLower)

/-- Word character in the sense of the regex class backslash-w and of the
word-boundary assertion: letters, digits and the underscore. -/
def isWordChar (c : Char) : Bool := c.isAlpha || c.isDigit || c == '_'

/-- Does the word `w` stand at the head of `s`? -/
def headMatches : List Char → List Char → Bool
  | [], _ => true
  | _ :: _, [] => false
  | c :: w, d :: s => c == d && headMatches w s

/-- Substring test, as `String.prototype.includes`. -/
def occursIn (w : List Char) : List Char → Bool
  | [] => w.isEmpty
  | c :: rest => headMatches w (c :: rest) || occursIn w rest

/-- Leftmost-match scan: try the position matcher `p` at every suffix, left
to right, mirroring how a regex engine finds the first match. -/
def scanFirst {α : Type} (p : List Char → Option α) : List Char → Option α
  | [] => none
  | c :: rest =>
    match p (c :: rest) with
    | some r => some r
    | none => scanFirst p rest

/-- Numeric value of a digit run, as `parseFloat` reads its integer part. -/
def digitsToNat (digits : List Char) : Nat :=
  digits.foldl (fun n c => n * 10 + (c.toNat - 48)) 0

/-- One attempt of a duration pattern at the current position: a nonempty
greedy digit run, then (for the third source pattern) the exact characters
".5", then optional whitespace, then one of the unit alternatives.  The
unit words start with letters, so the greedy digit run and whitespace run
never need to backtrack.  Returns the integer part of the captured
number. -/
def durationMatchAt (units : List String) (dotFive : Bool) (s : List Char) : Option Nat :=
  let digits := s.takeWhile Char.isDigit
  if digits.isEmpty then none
  else
    let rest := s.drop digits.length
    let cont : Option (List Char) :=
      if dotFive then
        if headMatches ['.', '5'] rest then some (rest.drop 2) else none
      else some rest
    match cont with
    | none => none
    | some r =>
      if units.any (fun u => headMatches u.data (r.dropWhile Char.isWhitespace)) then
        some (digitsToNat digits)
      else none

/-- Duration extraction of `localParse`: the three source regexes tried in
declared order (minutes, integer hours, fractional ".5" hours); a match of
an hour pattern is multiplied by 60, and the fractional capture `n.5`
contributes `n * 60 + 30` minutes. -/
def parseDuration (command : String) : Option Nat :=
  let chars := (toLowerStr command).data
  match scanFirst (durationMatchAt ["minute", "min", "minutes"] false) chars with
  | some n => some n
  | none =>
    match scanFirst (durationMatchAt ["hour", "hr", "hours"] false) chars with
    | some n => some (n * 60)
    | none =>
      match scanFirst (durationMatchAt ["hour", "hr", "hours"] true) chars with
      | some n => some (n * 60 + 30)
      | none => none

/-- Ordered platform synonym table of `localParse`. -/
def platformKeywords : List (String × List String) :=
  [("google-meet", ["google meet", "gmeet", "meet"]),
   ("zoom", ["zoom"]),
   ("teams", ["teams", "microsoft teams", "ms teams"])]

/-- Platform extraction of `localParse`: first table entry one of whose
keywords occurs in the lowercased command. -/
def detectPlatform (lowerCommand : String) : Option String :=
  (platformKeywords.find? fun p => p.2.any fun k => occursIn k.data lowerCommand.data).map (·.1)

/-- Match of the timezone-token pattern (three or four capital letters
between word boundaries) at one position: the greedy uppercase run must
have length exactly 3 or 4, since a longer run leaves a word character
after both greedy attempts, and the character after the run must not be a
word character.  The left boundary is checked by the scanner. -/
def upperTokenAt (s : List Char) : Option String :=
  let run := s.takeWhile Char.isUpper
  if run.length == 3 || run.length == 4 then
    match s.drop run.length with
    | [] => some (String.mk run)
    | c :: _ => if isWordChar c then none else some (String.mk run)
  else none

/-- Leftmost match of the timezone-token pattern, tracking the previous
character for the left word boundary. -/
def scanUpperToken : Option Char → List Char → Option String
  | _, [] => none
  | prev, c :: rest =>
    let leftOk := match prev with
      | none => true
      | some p => !isWordChar p
    match if leftOk then upperTokenAt (c :: rest) else none with
    | some tok => some tok
    | none => scanUpperToken (some c) rest

/-- Embeds `command.match` of the timezone-token regex, first capture. -/
def firstUpperToken (command : String) : Option String :=
  scanUpperToken none command.data

/-- Abbreviation table of `convertTimezoneAbbreviation`. -/
def timezoneMap : List (String × String) :=
  [("EST", "America/New_York"), ("EDT", "America/New_York"),
   ("CST", "America/Chicago"), ("CDT", "America/Chicago"),
   ("MST", "America/Denver"), ("MDT", "America/Denver"),
   ("PST", "America/Los_Angeles"), ("PDT", "America/Los_Angeles"),
   ("GMT", "Europe/London"), ("BST", "Europe/London"),
   ("CET", "Europe/Paris"), ("CEST", "Europe/Paris"),
   ("IST", "Asia/Kolkata"), ("JST", "Asia/Tokyo"),
   ("AEST", "Australia/Sydney"), ("AEDT", "Australia/Sydney")]

/-- Embeds `AIProcessor.convertTimezoneAbbreviation(abbr)`: table lookup, falling
back to the ambient system timezone, which the source reads from
`Intl.DateTimeFormat().resolvedOptions().timeZone` and the embedding
receives explicitly. -/
def convertTimezoneAbbreviation (systemTimezone abbr : String) : String :=
  match timezoneMap.find? (fun p => p.1 == abbr) with
  | some p => p.2
  | none => systemTimezone

/-- Participant information scraped from the chat page. -/
structure ParticipantInfo where
  name : Option String
  email : Option String
  jobInfo : Option String

/-- Chat context handed to the parser; every field is optional. -/
structure ChatContext where
  participantInfo : Option ParticipantInfo

/-- First result of `chrono.parse(command)` as consumed by `localParse`.
chrono-node is a library outside this repository, so it enters as an
oracle input: the ISO date part, the hour-certainty flag, and the local
hour and minute of the parsed instant. -/
structure ChronoStart where
  isoDate : String
  hourCertain : Bool
  hours : Nat
  minutes : Nat

/-- The central parsed-request value object of `localParse`. -/
structure ParsedRequest where
  participantName : Option String
  email : Option String
  date : Option String
  time : Option String
  timezone : Option String
  duration : Option Nat
  platform : Option String
  deriving DecidableEq

/-- JavaScript truthiness of an optional string: absent, and the empty
string, are falsy. -/
def truthyStr : Option String → Bool
  | none => false
  | some s => !(s == "")

/-- Keep a string only when it is truthy, as the guarded assignments
`if (x) parsed.f = x` of the source. -/
def keepTruthy (o : Option String) : Option String :=
  if truthyStr o then o else none

/-- Two-digit zero padding, as `String(n).padStart(2, "0")`. -/
def padTwo (n : Nat) : String :=
  if n < 10 then "0" ++ toString n else toString n

/-- Embeds `AIProcessor.localParse(command, context)`.  The chrono-node call is
the oracle `chronoFirst`; the ambient system timezone is passed as
`systemTimezone`. -/
def localParse (command : String) (context : Option ChatContext)
    (chronoFirst : Option ChronoStart) (systemTimezone : String) : ParsedRequest :=
  let pinfo := context.bind (·.participantInfo)
  { participantName := keepTruthy (pinfo.bind (·.name))
    email := keepTruthy (pinfo.bind (·.email))
    date := chronoFirst.map (·.isoDate)
    time := chronoFirst.bind fun c =>
      if c.hourCertain then some (padTwo c.hours ++ ":" ++ padTwo c.minutes) else none
    timezone := (firstUpperToken command).map (convertTimezoneAbbreviation systemTimezone)
    duration := parseDuration command
    platform := detectPlatform (toLowerStr command) }

/-- Validation result of `validateMeetingData`. -/
structure ValidationResult where
  isValid : Bool
  missing : List String
  deriving DecidableEq

/-- Embeds `BackgroundService.validateMeetingData(parsedData, context)` from the
background service worker: the email requirement is met by the parse or
the context, date and time only by the parse; the missing list is built in
the fixed order email, date, time. -/
def validateMeetingData (parsedData : ParsedRequest) (context : Option ChatContext) :
    ValidationResult :=
  let ctxEmail := (context.bind (·.participantInfo)).bind (·.email)
  let missing :=
    (if !truthyStr parsedData.email && !truthyStr ctxEmail then ["email"] else []) ++
      (if !truthyStr parsedData.date then ["date"] else []) ++
      (if !truthyStr parsedData.time then ["time"] else [])
  { isValid := missing.isEmpty, missing := missing }

/-- JSON values as produced by `JSON.parse` on the model content.  Numbers
are modelled as integers; no fractional number reaches the merge in the
verified statements. -/
inductive Json where
  | null : Json
  | bool : Bool → Json
  | num : Int → Json
  | str : String → Json
  | arr : List Json → Json
  | obj : List (String × Json) → Json

/-- JavaScript object under construction: ordered fields whose values may
be `undefined` (modelled as `none`), as happens when an object literal
assigns a property from a missing source property. -/
abbrev JsObj := List (String × Option Json)

/-- Value of field `k` in a parsed JSON field list; with duplicate keys
`JSON.parse` keeps the last one, hence the reverse search. -/
def jsGetField (fs : List (String × Json)) (k : String) : Option Json :=
  (fs.reverse.find? (fun p => p.1 == k)).map (·.2)

/-- JavaScript property read `j.k` on a JSON value that is not `null`:
fields of an object, `undefined` on the other values for the identifier
keys read by the merge (index and length properties of strings and arrays
are never read there). -/
def getProp (j : Json) (k : String) : Option Json :=
  match j with
  | Json.obj fs => jsGetField fs k
  | _ => none

/-- JavaScript property read on an object under construction: absent and
present-but-undefined both read as `undefined`. -/
def valueOf (o : JsObj) (k : String) : Option Json :=
  match o.find? (fun p => p.1 == k) with
  | some p => p.2
  | none => none

/-- JavaScript truthiness of a possibly-undefined JSON value. -/
def jsTruthy : Option Json → Bool
  | none => false
  | some Json.null => false
  | some (Json.bool b) => b
  | some (Json.num n) => !(n == 0)
  | some (Json.str s) => !(s == "")
  | some (Json.arr _) => true
  | some (Json.obj _) => true

/-- JavaScript `a || b`. -/
def jsOr (a b : Option Json) : Option Json :=
  if jsTruthy a then a else b

/-- Property assignment in an object literal: overwrite the property in
place when the key is present, append otherwise.  JavaScript objects never
hold a duplicate key, so the first occurrence is the property. -/
def setProp : JsObj → String → Option Json → JsObj
  | [], k, v => [(k, v)]
  | a :: o, k, v => if a.1 == k then (k, v) :: o else a :: setProp o k v

/-- Spread of parsed JSON fields into an object literal, left to right. -/
def spreadInto (o : JsObj) (fs : List (String × Json)) : JsObj :=
  fs.foldl (fun acc kv => setProp acc kv.1 (some kv.2)) o

/-- Fields contributed by `...aiParsed` when the value is not an object:
arrays and strings contribute their index properties, other primitives
contribute nothing. -/
def jsSpreadFields : Json → List (String × Json)
  | Json.obj fs => fs
  | Json.arr l => l.enum.map fun p => (toString p.1, p.2)
  | Json.str s => s.data.enum.map fun p => (toString p.1, Json.str (String.singleton p.2))
  | _ => []

/-- Outcome of the remote refinement call of `aiEnhancedParse`, covering
the control paths of the source: `notOk` is the `!response.ok` branch,
`invalidJson` is a thrown failure while reading the response envelope or
while `JSON.parse` reads the content, `fetchFailed` is a rejected network
call, and `content j` is a successful call whose content parsed to `j`. -/
inductive RemoteOutcome where
  | notOk : Nat → RemoteOutcome
  | invalidJson : RemoteOutcome
  | fetchFailed : RemoteOutcome
  | content : Json → RemoteOutcome

/-- Merge step of `AIProcessor.aiEnhancedParse(command, context,
localParse)`.  The prompt built from `command` and `context` only
influences the remote call, which enters as the oracle `remote`; every
failure path of the source lands in the catch and returns `localParse`.
Reading `.participantName` on a parsed `null` content throws, so that
path also returns `localParse` through the catch. -/
def aiEnhancedParse (localParse : JsObj) (remote : RemoteOutcome) : JsObj :=
  match remote with
  | .notOk _ => localParse
  | .invalidJson => localParse
  | .fetchFailed => localParse
  | .content Json.null => localParse
  | .content aiParsed =>
    let merged := spreadInto localParse (jsSpreadFields aiParsed)
    let merged := setProp merged "participantName"
      (jsOr (getProp aiParsed "participantName") (valueOf localParse "participantName"))
    setProp merged "email" (jsOr (getProp aiParsed "email") (valueOf localParse "email"))

/-- Image of a `ParsedRequest` as the JavaScript object that `localParse`
returns: all seven fields present, absent ones holding `null` as in the
initialisation of the source. -/
def toJsObj (p : ParsedRequest) : JsObj :=
  [("participantName", some (match p.participantName with | some s => Json.str s | none => Json.null)),
   ("email", some (match p.email with | some s => Json.str s | none => Json.null)),
   ("date", some (match p.date with | some s => Json.str s | none => Json.null)),
   ("time", some (match p.time with | some s => Json.str s | none => Json.null)),
   ("timezone", some (match p.timezone with | some s => Json.str s | none => Json.null)),
   ("duration", some (match p.duration with | some n => Json.num n | none => Json.null)),
   ("platform", some (match p.platform with | some s => Json.str s | none => Json.null))]

/-- Empty parse: every field absent. -/
def emptyParsed : ParsedRequest :=
  ⟨none, none, none, none, none, none, none⟩

/-- One alternative of a timezone regex: a literal word with a word
boundary required on each side or not.  Most source patterns wrap the
alternation in a group bounded on both sides; the Los Angeles and San
Francisco patterns place the boundaries inside the alternation, leaving
the first alternative with no right boundary and the second with no left
one. -/
structure WordAlt where
  left : Bool
  word : String
  right : Bool

/-- Alternative bounded on both sides. -/
def wordAlt (w : String) : WordAlt := ⟨true, w, true⟩

/-- Match of one alternative at one position of the lowered text, given
the previous character for the left boundary. -/
def altMatchAt (alt : WordAlt) (prev : Option Char) (s : List Char) : Bool :=
  let w := (toLowerStr alt.word).data
  (!alt.left || (match prev with | none => true | some c => !isWordChar c)) &&
    headMatches w s &&
    (!alt.right || (match s.drop w.length with | [] => true | c :: _ => !isWordChar c))

/-- Scan of an alternation over every position, left to right. -/
def altScan (alts : List WordAlt) : Option Char → List Char → Bool
  | _, [] => false
  | prev, c :: rest =>
    alts.any (fun a => altMatchAt a prev (c :: rest)) || altScan alts (some c) rest

/-- Case-insensitive regex test of an alternation of bounded words. -/
def testPattern (alts : List WordAlt) (text : String) : Bool :=
  altScan alts none (toLowerStr text).data

/-- Ordered pattern table of `parseTimezoneFromText`, in source order:
abbreviation and region patterns first, city patterns after. -/
def timezonePatterns : List (List WordAlt × String) :=
  [([wordAlt "EST", wordAlt "EDT", wordAlt "Eastern"], "America/New_York"),
   ([wordAlt "CST", wordAlt "CDT", wordAlt "Central"], "America/Chicago"),
   ([wordAlt "MST", wordAlt "MDT", wordAlt "Mountain"], "America/Denver"),
   ([wordAlt "PST", wordAlt "PDT", wordAlt "Pacific"], "America/Los_Angeles"),
   ([wordAlt "GMT", wordAlt "UTC"], "Europe/London"),
   ([wordAlt "BST", wordAlt "London"], "Europe/London"),
   ([wordAlt "CET", wordAlt "Paris", wordAlt "Berlin"], "Europe/Paris"),
   ([wordAlt "IST", wordAlt "India"], "Asia/Kolkata"),
   ([wordAlt "JST", wordAlt "Japan", wordAlt "Tokyo"], "Asia/Tokyo"),
   ([wordAlt "AEST", wordAlt "Sydney", wordAlt "Australia"], "Australia/Sydney"),
   ([wordAlt "New York"], "America/New_York"),
   ([⟨true, "Los Angeles", false⟩, ⟨false, "LA", true⟩], "America/Los_Angeles"),
   ([⟨true, "San Francisco", false⟩, ⟨false, "SF", true⟩], "America/Los_Angeles"),
   ([wordAlt "Seattle"], "America/Los_Angeles"),
   ([wordAlt "Denver"], "America/Denver"),
   ([wordAlt "London"], "Europe/London"),
   ([wordAlt "Paris"], "Europe/Paris"),
   ([wordAlt "Berlin"], "Europe/Berlin"),
   ([wordAlt "Dubai"], "Asia/Dubai"),
   ([wordAlt "Singapore"], "Asia/Singapore"),
   ([wordAlt "Hong Kong"], "Asia/Hong_Kong"),
   ([wordAlt "Tokyo"], "Asia/Tokyo"),
   ([wordAlt "Sydney"], "Australia/Sydney")]

/-- Embeds `TimezoneHandler.parseTimezoneFromText(text)`: first pattern of the
table that tests true wins; absent when none does. -/
def parseTimezoneFromText (text : String) : Option String :=
  (timezonePatterns.find? (fun p => testPattern p.1 text)).map (·.2)

/-- Leap year of the proleptic Gregorian calendar. -/
def isLeapYear (y : Int) : Bool :=
  (y.emod 4 == 0 && y.emod 100 != 0) || y.emod 400 == 0

/-- Length of a month. -/
def daysInMonth (y m : Int) : Int :=
  if m = 2 then (if isLeapYear y then 29 else 28)
  else if m = 4 ∨ m = 6 ∨ m = 9 ∨ m = 11 then 30
  else 31

/-- Civil date (year, month, day) of a day number, with 1970-01-01 as day
zero, by the standard era-based conversion. -/
def civilFromDay (z : Int) : Int × Int × Int :=
  let z2 := z + 719468
  let era := z2.fdiv 146097
  let doe := z2 - era * 146097
  let yoe := (doe - doe.fdiv 1460 + doe.fdiv 36524 - doe.fdiv 146096).fdiv 365
  let y := yoe + era * 400
  let doy := doe - (365 * yoe + yoe.fdiv 4 - yoe.fdiv 100)
  let mp := (5 * doy + 2).fdiv 153
  let d := doy - (153 * mp + 2).fdiv 5 + 1
  let m := mp + (if mp < 10 then 3 else -9)
  (y + (if m ≤ 2 then 1 else 0), m, d)

/-- Day number of a civil date, inverse of `civilFromDay`. -/
def dayFromCivil (y m d : Int) : Int :=
  let y2 := y - (if m ≤ 2 then 1 else 0)
  let era := y2.fdiv 400
  let yoe := y2 - era * 400
  let mp := m + (if 2 < m then -3 else 9)
  let doy := (153 * mp + 2).fdiv 5 + d - 1
  let doe := yoe * 365 + yoe.fdiv 4 - yoe.fdiv 100 + doy
  era * 146097 + doe - 719468

/-- moment `add(n, "month")`: advance the month and clamp the day of month
to the length of the target month. -/
def addMonths (day : Int) (n : Nat) : Int :=
  match civilFromDay day with
  | (y, m, d) =>
    let months := y * 12 + (m - 1) + n
    let y2 := months.fdiv 12
    let m2 := months.emod 12 + 1
    dayFromCivil y2 m2 (min d (daysInMonth y2 m2))

/-- Day of week of a day number, Sunday as 0 in the default moment locale;
day 0 (1970-01-01) was a Thursday. -/
def dayOfWeek (day : Int) : Int := (day + 4).emod 7

/-- Word-boundary containment test of one fixed lowercase word, as the
anchored regexes of `parseRelativeTime` applied to the lowered text. -/
def containsWord (w : String) (chars : List Char) : Bool :=
  altScan [wordAlt w] none chars

/-- Monday-first weekday list of `parseRelativeTime`. -/
def daysOfWeek : List String :=
  ["monday", "tuesday", "wednesday", "thursday", "friday", "saturday", "sunday"]

/-- Generic leftmost scan threading the previous character, for patterns
with a left word boundary. -/
def scanWithPrev {α : Type} (p : Option Char → List Char → Option α) :
    Option Char → List Char → Option α
  | _, [] => none
  | prev, c :: rest =>
    match p prev (c :: rest) with
    | some r => some r
    | none => scanWithPrev p (some c) rest

/-- Match of the weekday pattern at one position: a bounded "next" or
"this", one or more whitespace characters, then a weekday name followed by
a word boundary.  Returns the modifier and the weekday name. -/
def dayPatternAt (prev : Option Char) (s : List Char) : Option (String × String) :=
  let leftOk := match prev with | none => true | some c => !isWordChar c
  if !leftOk then none
  else
    let m := if headMatches "next".data s then some "next"
      else if headMatches "this".data s then some "this" else none
    match m with
    | none => none
    | some modifier =>
      let rest := s.drop 4
      let spaces := rest.takeWhile Char.isWhitespace
      if spaces.isEmpty then none
      else
        let rest2 := rest.drop spaces.length
        match daysOfWeek.find? (fun d => headMatches d.data rest2 &&
            (match rest2.drop d.data.length with
             | [] => true
             | c :: _ => !isWordChar c)) with
        | some d => some (modifier, d)
        | none => none

/-- JavaScript `unit.replace(/s$/, "")`. -/
def stripTrailingS (u : String) : String :=
  match u.data.getLast? with
  | some c => if c == 's' then String.mk u.data.dropLast else u
  | none => u

/-- Match of the "in N units" pattern at one position: a bounded "in", one
or more whitespace characters, a digit run, whitespace, then a unit word
followed by a word boundary; the unit alternation backtracks to the
plural form when the singular leaves a word character.  Returns the
amount and the singular unit. -/
def inPatternAt (prev : Option Char) (s : List Char) : Option (Nat × String) :=
  let leftOk := match prev with | none => true | some c => !isWordChar c
  if !leftOk then none
  else if !headMatches "in".data s then none
  else
    let rest := s.drop 2
    let spaces := rest.takeWhile Char.isWhitespace
    if spaces.isEmpty then none
    else
      let rest2 := rest.drop spaces.length
      let digits := rest2.takeWhile Char.isDigit
      if digits.isEmpty then none
      else
        let rest3 := rest2.drop digits.length
        let spaces2 := rest3.takeWhile Char.isWhitespace
        if spaces2.isEmpty then none
        else
          let rest4 := rest3.drop spaces2.length
          match ["day", "days", "week", "weeks", "month", "months"].find?
              (fun u => headMatches u.data rest4 &&
                (match rest4.drop u.data.length with
                 | [] => true
                 | c :: _ => !isWordChar c)) with
          | some u => some (digitsToNat digits, stripTrailingS u)
          | none => none

/-- Embeds `TimezoneHandler.parseRelativeTime(text, referenceDate)` at day
granularity: the reference instant and result are day numbers (day 0 is
1970-01-01); moment weeks start on Sunday in the default locale, and
`moment.day(n)` selects day-of-week `n` inside the current week. -/
def parseRelativeTime (text : String) (referenceDay : Int) : Option Int :=
  let lowerText := (toLowerStr text).data
  let now := referenceDay
  if containsWord "today" lowerText then some now
  else if containsWord "tomorrow" lowerText then some (now + 1)
  else if containsWord "yesterday" lowerText then some (now - 1)
  else if containsWord "next week" lowerText then some (now + 7 - dayOfWeek (now + 7))
  else if containsWord "this week" lowerText then some (now - dayOfWeek now)
  else
    match scanWithPrev dayPatternAt none lowerText with
    | some (modifier, dayName) =>
      let targetDay : Int := (daysOfWeek.indexOf dayName : Nat)
      let targetDate := now + (targetDay - dayOfWeek now)
      some (if modifier == "next" || targetDate < now then targetDate + 7 else targetDate)
    | none =>
      match scanWithPrev inPatternAt none lowerText with
      | some (amount, unit) =>
        if unit == "day" then some (now + amount)
        else if unit == "week" then some (now + 7 * amount)
        else if unit == "month" then some (addMonths now amount)
        else none
      | none => none

/-- Suggestion object of `suggestMeetingTimes`: the wall hour in each
zone and the score.  Scores are exact multiples of one half, modelled in
`ℚ`. -/
structure TimeSuggestion where
  hour1 : Nat
  hour2 : Nat
  score : ℚ
  deriving DecidableEq

/-- Embeds `TimezoneHandler.calculateTimeScore(hour1, hour2)`. -/
def calculateTimeScore (hour1 hour2 : Nat) : ℚ :=
  let idealStart := 10
  let idealEnd := 16
  let score1 : ℚ := if idealStart ≤ hour1 ∧ hour1 ≤ idealEnd then 1 else 1/2
  let score2 : ℚ := if idealStart ≤ hour2 ∧ hour2 ≤ idealEnd then 1 else 1/2
  let earlyPenalty1 : ℚ := if hour1 < 9 then -(1/2) else 0
  let earlyPenalty2 : ℚ := if hour2 < 9 then -(1/2) else 0
  let latePenalty1 : ℚ := if 17 < hour1 then -(1/2) else 0
  let latePenalty2 : ℚ := if 17 < hour2 then -(1/2) else 0
  score1 + score2 + earlyPenalty1 + earlyPenalty2 + latePenalty1 + latePenalty2

/-- Wall hour in the second zone of the instant whose wall hour in the
first zone is `hour`: timezones enter the embedding as fixed UTC offsets
in minutes. -/
def hourInZone2 (offset1 offset2 : Int) (hour : Nat) : Nat :=
  ((((hour : Int) * 60 + (offset2 - offset1)).emod 1440) / 60).toNat

/-- Candidate pairs of `suggestMeetingTimes`: each whole hour of the first
window whose converted hour falls in the second window, in enumeration
order (ascending first-zone hour). -/
def meetingCandidates (offset1 offset2 : Int) (bhs bhe : Nat) : List TimeSuggestion :=
  ((List.range (bhe - bhs)).map (fun k => bhs + k)).filterMap fun hour =>
    let hour2 := hourInZone2 offset1 offset2 hour
    if bhs ≤ hour2 ∧ hour2 < bhe then
      some ⟨hour, hour2, calculateTimeScore hour hour2⟩
    else none

/-- Embeds `TimezoneHandler.suggestMeetingTimes(timezone1, timezone2, options)`:
score each surviving pair, sort by descending score with the stable
array sort and the comparator `b.score - a.score`, and return the first
five. -/
def suggestMeetingTimes (offset1 offset2 : Int) (bhs bhe : Nat) : List TimeSuggestion :=
  ((meetingCandidates offset1 offset2 bhs bhe).mergeSort
    fun a b => decide (b.score ≤ a.score)).take 5

/-- Scoring rule in the words of the claim: one full point per side whose
hour lies in 10 to 16 inclusive and half a point otherwise, minus half a
point per side whose hour is before 9 or after 17. -/
def claimScore (h : Nat) : ℚ :=
  (if 10 ≤ h ∧ h ≤ 16 then 1 else 1/2) - (if h < 9 ∨ 17 < h then 1/2 else 0)

theorem le_nextDayBusinessStart (t : Nat) : t ≤ nextDayBusinessStart t := by
  unfold nextDayBusinessStart
  omega

theorem slotConflicts_eq_false {busySlots : List BusyInterval} {t e : Nat} :
    slotConflicts busySlots t e = false ↔
      ∀ b ∈ busySlots,
        ¬(b.busyStart ≤ t ∧ t < b.busyEnd) ∧ ¬(b.busyStart < e ∧ e ≤ b.busyEnd) := by
  simp only [slotConflicts, List.any_eq_false, decide_eq_true_eq]
  constructor
  · intro h b hb
    have := h b hb
    tauto
  · intro h b hb
    have := h b hb
    tauto

theorem findAvailableSlotsGo_mem {busySlots : List BusyInterval} {duration endDate : Nat}
    {fuel t : Nat} {s : Slot}
    (h : s ∈ findAvailableSlotsGo busySlots duration endDate fuel t) :
    t ≤ s.start ∧ s.start < endDate ∧ s.finish = s.start + duration ∧
      getHours s.finish ≤ 17 ∧ slotConflicts busySlots s.start s.finish = false := by
  induction fuel generalizing t with
  | zero => simp [findAvailableSlotsGo] at h
  | succ n ih =>
    rw [findAvailableSlotsGo] at h
    by_cases hlt : t < endDate
    · rw [if_pos hlt] at h
      by_cases hbiz : 17 < getHours (t + duration)
      · rw [if_pos hbiz] at h
        obtain ⟨h1, h2, h3, h4, h5⟩ := ih h
        exact ⟨Nat.le_trans (le_nextDayBusinessStart t) h1, h2, h3, h4, h5⟩
      · rw [if_neg hbiz] at h
        by_cases hconf : slotConflicts busySlots t (t + duration) = true
        · rw [if_pos hconf] at h
          obtain ⟨h1, h2, h3, h4, h5⟩ := ih h
          exact ⟨by omega, h2, h3, h4, h5⟩
        · rw [if_neg hconf] at h
          rcases List.mem_cons.mp h with rfl | h
          · exact ⟨Nat.le_refl _, hlt, rfl, Nat.not_lt.mp hbiz, Bool.eq_false_iff.mpr hconf⟩
          · obtain ⟨h1, h2, h3, h4, h5⟩ := ih h
            exact ⟨by omega, h2, h3, h4, h5⟩
    · rw [if_neg hlt] at h
      simp at h

/-- C1 counterexample.  Claim C1 states that every returned slot ends no
later than 17:00 (minute 1020 of the day) and that its span does not
intersect any busy interval.  With the single-day window of day 0, busy
interval 16:45 to 17:15 and a positive duration of 60 minutes, the finder
returns the slot 16:30 to 17:30, which ends after 17:00 and whose span
fully contains, hence intersects, the busy interval. -/
theorem c1_business_hours_counterexample :
    Slot.mk 990 1050 ∈ findAvailableSlots 0 1440 [⟨1005, 1035⟩] 60 ∧
      (0 : Nat) < 60 ∧ 1020 < 1050 ∧ max 990 1005 < min 1050 1035 := by
  refine ⟨by decide, by decide, by decide, by decide⟩

/-- C1 amended.  For a single-day window and a positive duration, each
returned slot starts no earlier than 09:00 of that day, its span is
exactly the requested duration, the hour component of its end instant is
at most 17 (so the end can reach 17:59 rather than 17:00), and neither
its start instant nor its end instant lies inside a busy interval in the
half-open sense of the source test (the slot may still fully contain a
busy interval). -/
theorem c1_slot_invariants (d : Nat) (busySlots : List BusyInterval) (duration : Nat)
    (hdur : 0 < duration) :
    ∀ s ∈ findAvailableSlots (d * 1440) (d * 1440 + 1440) busySlots duration,
      d * 1440 + 540 ≤ s.start ∧ s.start < d * 1440 + 1440 ∧
        s.finish = s.start + duration ∧ getHours s.finish ≤ 17 ∧
        ∀ b ∈ busySlots,
          ¬(b.busyStart ≤ s.start ∧ s.start < b.busyEnd) ∧
          ¬(b.busyStart < s.finish ∧ s.finish ≤ b.busyEnd) := by
  intro s hs
  have hstart : d * 1440 / 1440 * 1440 + 9 * 60 = d * 1440 + 540 := by
    omega
  unfold findAvailableSlots at hs
  rw [hstart] at hs
  obtain ⟨h1, h2, h3, h4, h5⟩ := findAvailableSlotsGo_mem hs
  exact ⟨h1, h2, h3, h4, slotConflicts_eq_false.mp h5⟩

/-- Witness for C1 amended at day 0, no busy intervals, duration 30: the
09:00 to 09:30 slot is returned and satisfies the invariants. -/
theorem c1_slot_invariants_witness :
    (0 : Nat) < 30 ∧ Slot.mk 540 570 ∈ findAvailableSlots 0 1440 [] 30 ∧
      0 * 1440 + 540 ≤ (Slot.mk 540 570).start := by
  refine ⟨by decide, by decide, ?_⟩
  exact (c1_slot_invariants 0 [] 30 (by decide) ⟨540, 570⟩ (by decide)).1

/-- C7.  The overlap test of the slot finder rejects a candidate exactly
when its start lies in some `[busyStart, busyEnd)` or its end lies in some
`(busyStart, busyEnd]`, so exact boundary abutment does not count as an
overlap; with the single busy interval 10:00 to 10:30 and duration 30, the
09:30 slot (abutting from the left) is returned, the 10:00 slot is not,
and the 10:30 slot (abutting from the right) is returned. -/
theorem c7_overlap_boundary :
    (∀ (busySlots : List BusyInterval) (t e : Nat),
        slotConflicts busySlots t e = false ↔
          ∀ b ∈ busySlots,
            ¬(b.busyStart ≤ t ∧ t < b.busyEnd) ∧ ¬(b.busyStart < e ∧ e ≤ b.busyEnd)) ∧
      Slot.mk 570 600 ∈ findAvailableSlots 0 1440 [⟨600, 630⟩] 30 ∧
      Slot.mk 600 630 ∉ findAvailableSlots 0 1440 [⟨600, 630⟩] 30 ∧
      Slot.mk 630 660 ∈ findAvailableSlots 0 1440 [⟨600, 630⟩] 30 := by
  exact ⟨fun _ _ _ => slotConflicts_eq_false, by decide, by decide, by decide⟩

/-- Witness for C7: instantiating the equivalence on a concrete busy list
shows the abutting candidate 09:30 to 10:00 passes the overlap test. -/
theorem c7_overlap_boundary_witness :
    slotConflicts [⟨600, 630⟩] 570 600 = false := by
  exact (c7_overlap_boundary.1 [⟨600, 630⟩] 570 600).mpr (by decide)

theorem valueOf_cons (a : String × Option Json) (o : JsObj) (k : String) :
    valueOf (a :: o) k = if a.1 == k then a.2 else valueOf o k := by
  simp only [valueOf, List.find?]
  cases h : (a.1 == k) with
  | true => simp [h]
  | false => simp [h]

theorem valueOf_setProp (o : JsObj) (k k2 : String) (v : Option Json) :
    valueOf (setProp o k v) k2 = if k = k2 then v else valueOf o k2 := by
  induction o with
  | nil =>
    rw [show setProp [] k v = [(k, v)] from rfl, valueOf_cons]
    by_cases h : k = k2 <;> simp [h, valueOf]
  | cons a o ih =>
    simp only [setProp]
    by_cases ha : a.1 = k
    · rw [if_pos (by simpa using ha)]
      rw [valueOf_cons, valueOf_cons]
      by_cases hk : k = k2
      · simp [hk]
      · have h2 : (a.1 == k2) = false := by
          rw [ha]
          simpa using hk
        simp [h2, hk]
    · rw [if_neg (by simpa using ha)]
      rw [valueOf_cons, ih, valueOf_cons]
      by_cases hk : k = k2
      · have h2 : (a.1 == k2) = false := by
          subst hk
          simpa using ha
        simp [h2, hk]
      · simp [hk]

theorem jsGetField_cons (kv : String × Json) (fs : List (String × Json)) (k : String) :
    jsGetField (kv :: fs) k =
      match jsGetField fs k with
      | some v => some v
      | none => if kv.1 = k then some kv.2 else none := by
  simp only [jsGetField, List.reverse_cons, List.find?_append]
  cases h : fs.reverse.find? (fun p => p.1 == k) with
  | some x => simp [Option.or]
  | none =>
    simp only [Option.or]
    cases hkv : (kv.1 == k) with
    | true => simp [List.find?, hkv, show kv.1 = k from by simpa using hkv]
    | false => simp [List.find?, hkv, show ¬kv.1 = k from by simpa using hkv]

theorem valueOf_spreadInto (o : JsObj) (fs : List (String × Json)) (k : String) :
    valueOf (spreadInto o fs) k =
      match jsGetField fs k with
      | some v => some v
      | none => valueOf o k := by
  induction fs generalizing o with
  | nil => simp [spreadInto, jsGetField]
  | cons kv fs ih =>
    have hstep : spreadInto o (kv :: fs) = spreadInto (setProp o kv.1 (some kv.2)) fs := rfl
    rw [hstep, ih, jsGetField_cons, valueOf_setProp]
    cases h : jsGetField fs k with
    | some v => rfl
    | none =>
      by_cases hk : kv.1 = k
      · simp [hk]
      · simp [hk]

theorem aiEnhancedParse_obj (lp : JsObj) (fs : List (String × Json)) :
    aiEnhancedParse lp (.content (Json.obj fs)) =
      setProp (setProp (spreadInto lp fs) "participantName"
          (jsOr (jsGetField fs "participantName") (valueOf lp "participantName")))
        "email" (jsOr (jsGetField fs "email") (valueOf lp "email")) := rfl

/-- C2.  Duration extraction at the three spec examples.  The claim
expects 90 for the fractional-hours command, but the integer-hour pattern
is tried before the fractional one and its digit run matches the "5" of
"1.5", so the code returns 5 hours = 300 minutes; the dedicated
fractional pattern of the source is unreachable.  The two other examples
behave as claimed. -/
theorem c2_duration_extraction :
    parseDuration ("let" ++ String.singleton (Char.ofNat 39) ++ "s meet for 1.5 hours") =
      some 300 ∧
      parseDuration "a 45 minute call" = some 45 ∧
      parseDuration "no duration mentioned" = none := by
  refine ⟨by decide, by decide, by decide⟩

/-- C3 amended.  On every failure path of the remote call that the source
catches (non-success status, thrown network failure, unreadable envelope
or unparseable content, and a parsed null content, whose property read
throws inside the try block) the refiner returns the localParse argument
itself, propagating no error.  A well-formed but schema-violating JSON
content is not such a failure: it is merged; see the counterexample. -/
theorem c3_refiner_fallback (lp : JsObj) (status : Nat) :
    aiEnhancedParse lp (.notOk status) = lp ∧
      aiEnhancedParse lp .invalidJson = lp ∧
      aiEnhancedParse lp .fetchFailed = lp ∧
      aiEnhancedParse lp (.content Json.null) = lp :=
  ⟨rfl, rfl, rfl, rfl⟩

/-- C3 counterexample.  A successful call whose content is valid JSON but
violates the response schema (duration must be a number, not a string) is
not treated as a failure: the merge copies the string into the result,
which then differs from the localParse argument at the duration field and
therefore is not deep-equal to it. -/
theorem c3_schema_violation_counterexample :
    valueOf (aiEnhancedParse (toJsObj emptyParsed)
        (.content (Json.obj [("duration", Json.str "thirty")]))) "duration" =
      some (Json.str "thirty") ∧
      valueOf (toJsObj emptyParsed) "duration" = some Json.null ∧
      Json.str "thirty" ≠ Json.null :=
  ⟨rfl, rfl, by simp⟩

/-- C4 amended.  On a successful refinement, every field other than
participant name and email takes the value present in the model response
(whatever that value is) and retains the local value when the key is
absent; participant name and email take the model value only when it is
truthy, falling back to the local value both when the model omits them
and when it supplies a falsy value such as the empty string.  The merge
example of the claim holds. -/
theorem c4_merge_precedence :
    (∀ (lp : JsObj) (fs : List (String × Json)) (k : String),
        k ≠ "participantName" → k ≠ "email" →
        valueOf (aiEnhancedParse lp (.content (Json.obj fs))) k =
          match jsGetField fs k with
          | some v => some v
          | none => valueOf lp k) ∧
      (∀ (lp : JsObj) (fs : List (String × Json)),
        valueOf (aiEnhancedParse lp (.content (Json.obj fs))) "participantName" =
          jsOr (jsGetField fs "participantName") (valueOf lp "participantName") ∧
        valueOf (aiEnhancedParse lp (.content (Json.obj fs))) "email" =
          jsOr (jsGetField fs "email") (valueOf lp "email")) ∧
      valueOf (aiEnhancedParse (toJsObj { emptyParsed with email := some "a@x.com" })
          (.content (Json.obj [("date", Json.str "2024-01-01")]))) "email" =
        some (Json.str "a@x.com") ∧
      valueOf (aiEnhancedParse (toJsObj { emptyParsed with email := some "a@x.com" })
          (.content (Json.obj [("date", Json.str "2024-01-01")]))) "date" =
        some (Json.str "2024-01-01") := by
  refine ⟨?_, ?_, rfl, rfl⟩
  · intro lp fs k hpn hem
    rw [aiEnhancedParse_obj, valueOf_setProp, valueOf_setProp, valueOf_spreadInto]
    rw [if_neg (Ne.symm hem), if_neg (Ne.symm hpn)]
  · intro lp fs
    constructor
    · rw [aiEnhancedParse_obj, valueOf_setProp, if_neg (by decide), valueOf_setProp,
        if_pos rfl]
    · rw [aiEnhancedParse_obj, valueOf_setProp, if_pos rfl]

/-- Witness for C4 amended: a field absent from the model response keeps
its local value; instantiated at the timezone field of the empty parse. -/
theorem c4_merge_precedence_witness :
    valueOf (aiEnhancedParse (toJsObj emptyParsed)
        (.content (Json.obj [("date", Json.str "2024-01-01")]))) "timezone" =
      some Json.null := by
  have h := c4_merge_precedence.1 (toJsObj emptyParsed) [("date", Json.str "2024-01-01")]
    "timezone" (by decide) (by decide)
  rw [h]
  rfl

/-- C4 counterexample.  A participant email that is present in the model
response but empty (hence falsy) is not taken: the merged result keeps
the local value, contradicting the claim that each present field is taken
from the model output. -/
theorem c4_present_empty_email_counterexample :
    valueOf (aiEnhancedParse (toJsObj { emptyParsed with email := some "a@x.com" })
        (.content (Json.obj [("email", Json.str "")]))) "email" =
      some (Json.str "a@x.com") ∧
      jsGetField [("email", Json.str "")] "email" = some (Json.str "") ∧
      Json.str "a@x.com" ≠ Json.str "" :=
  ⟨rfl, rfl, by simp⟩

/-- C5.  The validator is a total function of its two arguments; each
required field appears in the missing list exactly under the claimed
condition (email satisfiable by parse or context, date and time only by
the parse); the missing list is always a sublist of the fixed sequence
email, date, time, hence in that order; validity is emptiness of the
missing list; and the completely empty parse with no context yields
exactly the three missing fields with validity false. -/
theorem c5_validate (parsed : ParsedRequest) (context : Option ChatContext) :
    ("email" ∈ (validateMeetingData parsed context).missing ↔
        (¬truthyStr parsed.email = true ∧
          ¬truthyStr ((context.bind (·.participantInfo)).bind (·.email)) = true)) ∧
      ("date" ∈ (validateMeetingData parsed context).missing ↔
        ¬truthyStr parsed.date = true) ∧
      ("time" ∈ (validateMeetingData parsed context).missing ↔
        ¬truthyStr parsed.time = true) ∧
      (validateMeetingData parsed context).missing.Sublist ["email", "date", "time"] ∧
      ((validateMeetingData parsed context).isValid = true ↔
        (validateMeetingData parsed context).missing = []) ∧
      validateMeetingData emptyParsed none = ⟨false, ["email", "date", "time"]⟩ := by
  by_cases h1 : truthyStr parsed.email = true <;>
    by_cases h1c : truthyStr ((context.bind (·.participantInfo)).bind (·.email)) = true <;>
    by_cases h2 : truthyStr parsed.date = true <;>
    by_cases h3 : truthyStr parsed.time = true <;>
    simp [validateMeetingData, h1, h1c, h2, h3] <;> decide

/-- Witness for C5 at the empty parse with no context: the email
characterisation instantiates to a membership fact. -/
theorem c5_validate_witness :
    "email" ∈ (validateMeetingData emptyParsed none).missing := by
  exact (c5_validate emptyParsed none).1.mpr (by decide)

/-- C10.  When the command contains a three-or-four-capital-letter token
(first match of the source regex), localParse always sets the timezone
field: to the table entry when the token is a known abbreviation, and to
the ambient system default otherwise, so the field is never absent on
this path. -/
theorem c10_timezone_always_set (command : String) (context : Option ChatContext)
    (chronoFirst : Option ChronoStart) (systemTimezone abbr : String)
    (h : firstUpperToken command = some abbr) :
    (localParse command context chronoFirst systemTimezone).timezone =
      some (convertTimezoneAbbreviation systemTimezone abbr) ∧
      (localParse command context chronoFirst systemTimezone).timezone ≠ none ∧
      ((abbr, convertTimezoneAbbreviation systemTimezone abbr) ∈ timezoneMap ∨
        convertTimezoneAbbreviation systemTimezone abbr = systemTimezone) := by
  refine ⟨by simp [localParse, h], by simp [localParse, h], ?_⟩
  unfold convertTimezoneAbbreviation
  cases hf : timezoneMap.find? (fun p => p.1 == abbr) with
  | some p =>
    left
    have hmem := List.mem_of_find?_eq_some hf
    have hcond : p.1 = abbr := by simpa using List.find?_some hf
    rw [← hcond]
    simpa using hmem
  | none =>
    right
    rfl

/-- Witness for C10: a command with the unknown token XYZ makes localParse
fall back to the system default timezone. -/
theorem c10_timezone_always_set_witness :
    (localParse "sync at XYZ time" none none "America/Toronto").timezone =
      some (convertTimezoneAbbreviation "America/Toronto" "XYZ") := by
  exact (c10_timezone_always_set "sync at XYZ time" none none "America/Toronto" "XYZ"
    (by decide)).1

theorem find?_eq_get_of_first {α : Type} (l : List α) (p : α → Bool) (i : Nat)
    (hi : i < l.length) (hp : p (l.get ⟨i, hi⟩) = true)
    (hbefore : ∀ j (hj : j < i), p (l.get ⟨j, Nat.lt_trans hj hi⟩) = false) :
    l.find? p = some (l.get ⟨i, hi⟩) := by
  induction l generalizing i with
  | nil => simp at hi
  | cons a l ih =>
    cases i with
    | zero =>
      simp only [List.get] at hp
      simp [List.find?, hp]
    | succ n =>
      have h0 : p a = false := hbefore 0 (Nat.succ_pos n)
      have hn : n < l.length := by simpa using hi
      simp only [List.find?, h0, List.get]
      exact ih n hn hp (fun j hj => hbefore (j + 1) (Nat.succ_lt_succ hj))

/-- C6.  Weekday resolution evaluated at a Wednesday reference, day 6 =
1970-01-07.  The source indexes weekday names in a Monday-first list but
moment `day()` counts Sunday-first, so every resolved weekday lands one
day early: "this friday" resolves to day 7, a Thursday, where the claim
expects the Friday two days after the Wednesday reference (day 8); "this
monday" resolves to day 10, a Sunday; and "next monday" coincides with
"this monday" instead of lying one full week beyond it, because the
already-passed branch and the next modifier both add a single week. -/
theorem c6_weekday_resolution :
    dayOfWeek 6 = 3 ∧
      parseRelativeTime "this friday" 6 = some 7 ∧ dayOfWeek 7 = 4 ∧
      parseRelativeTime "this monday" 6 = some 10 ∧ dayOfWeek 10 = 0 ∧
      parseRelativeTime "next friday" 6 = some 14 ∧
      parseRelativeTime "next monday" 6 = some 10 ∧
      parseRelativeTime "next monday" 6 = parseRelativeTime "this monday" 6 := by
  exact ⟨by decide, by decide, by decide, by decide, by decide, by decide, by decide, by decide⟩

/-- C8.  The timezone resolver at the two spec examples, and in general:
when pattern `i` of the table tests true on the text while every earlier
pattern tests false, the result is the timezone of pattern `i`
(first-match-wins in declared order); when no pattern tests true the
result is absent, and the resolver is a total function, hence never
throws. -/
theorem c8_timezone_first_match :
    parseTimezoneFromText ("I" ++ String.singleton (Char.ofNat 39) ++ "m on PST tonight") =
      some "America/Los_Angeles" ∧
      parseTimezoneFromText "see you in gibberish" = none ∧
      (∀ (text : String) (i : Nat) (hi : i < timezonePatterns.length),
        testPattern (timezonePatterns.get ⟨i, hi⟩).1 text = true →
        (∀ j (hj : j < i), testPattern (timezonePatterns.get ⟨j, Nat.lt_trans hj hi⟩).1 text
            = false) →
        parseTimezoneFromText text = some (timezonePatterns.get ⟨i, hi⟩).2) ∧
      (∀ text : String, (∀ p ∈ timezonePatterns, testPattern p.1 text = false) →
        parseTimezoneFromText text = none) := by
  refine ⟨by decide, by decide, ?_, ?_⟩
  · intro text i hi hp hbefore
    unfold parseTimezoneFromText
    rw [find?_eq_get_of_first timezonePatterns _ i hi hp hbefore]
    rfl
  · intro text h
    unfold parseTimezoneFromText
    rw [List.find?_eq_none.mpr (fun p hp => by simp [h p hp])]
    rfl

/-- Witness for C8: on a text matched by both the PST pattern (index 3)
and the London patterns further down the table, the first match wins. -/
theorem c8_timezone_first_match_witness :
    parseTimezoneFromText "PST or London" = some "America/Los_Angeles" := by
  have h := c8_timezone_first_match.2.2.1 "PST or London" 3 (by decide) (by decide)
    (by decide)
  exact h

theorem pairwise_mem_cases {α : Type} {R : α → α → Prop} {l : List α} (hp : l.Pairwise R)
    {a b : α} (ha : a ∈ l) (hb : b ∈ l) : a = b ∨ R a b ∨ R b a := by
  induction l with
  | nil => simp at ha
  | cons x l ih =>
    have hx := List.pairwise_cons.mp hp
    rcases List.mem_cons.mp ha with rfl | ha2
    · rcases List.mem_cons.mp hb with rfl | hb2
      · exact Or.inl rfl
      · exact Or.inr (Or.inl (hx.1 b hb2))
    · rcases List.mem_cons.mp hb with rfl | hb2
      · exact Or.inr (Or.inr (hx.1 a ha2))
      · exact ih hx.2 ha2 hb2

theorem pair_sublist_of_pairwise {α : Type} {R : α → α → Prop} {l : List α}
    (hasym : ∀ x y, R x y → ¬R y x) (hp : l.Pairwise R) {a b : α}
    (ha : a ∈ l) (hb : b ∈ l) (hR : R a b) : List.Sublist [a, b] l := by
  induction l with
  | nil => simp at ha
  | cons x l ih =>
    have hx := List.pairwise_cons.mp hp
    rcases List.mem_cons.mp ha with rfl | ha2
    · rcases List.mem_cons.mp hb with rfl | hb2
      · exact absurd hR (hasym _ _ hR)
      · exact (List.singleton_sublist.mpr hb2).cons₂ a
    · rcases List.mem_cons.mp hb with rfl | hb2
      · exact absurd (hx.1 a ha2) (hasym _ _ hR)
      · exact (ih hx.2 ha2 hb2).cons x

theorem eq_of_pair_sublists {α : Type} {l : List α} (h : l.Pairwise (· ≠ ·)) {a b : α}
    (hab : List.Sublist [a, b] l) (hba : List.Sublist [b, a] l) : a = b := by
  induction l with
  | nil => simp at hab
  | cons x l ih =>
    have hx := List.pairwise_cons.mp h
    cases hab with
    | cons _ hab2 =>
      cases hba with
      | cons _ hba2 => exact ih hx.2 hab2 hba2
      | cons₂ _ hba2 =>
        have hbl : b ∈ l := hab2.subset (by simp)
        exact absurd rfl (hx.1 b hbl)
    | cons₂ _ hab2 =>
      cases hba with
      | cons _ hba2 =>
        have hal : a ∈ l := hba2.subset (by simp)
        exact absurd rfl (hx.1 a hal)
      | cons₂ _ hba2 => rfl

theorem mem_meetingCandidates {offset1 offset2 : Int} {bhs bhe : Nat} {s : TimeSuggestion} :
    s ∈ meetingCandidates offset1 offset2 bhs bhe ↔
      bhs ≤ s.hour1 ∧ s.hour1 < bhe ∧ s.hour2 = hourInZone2 offset1 offset2 s.hour1 ∧
        bhs ≤ s.hour2 ∧ s.hour2 < bhe ∧ s.score = calculateTimeScore s.hour1 s.hour2 := by
  unfold meetingCandidates
  simp only [List.mem_filterMap, List.mem_map, List.mem_range,
    Option.ite_none_right_eq_some, Option.some.injEq]
  constructor
  · rintro ⟨hour, ⟨⟨k, hk, rfl⟩, hcond, rfl⟩⟩
    exact ⟨Nat.le_add_right _ _, (by omega : bhs + k < bhe), rfl, hcond.1, hcond.2, rfl⟩
  · rintro ⟨h1, h2, heq2, h3, h4, heqs⟩
    refine ⟨s.hour1, ⟨s.hour1 - bhs, by omega, by omega⟩, ⟨?_, ?_⟩⟩
    · rw [← heq2]
      exact ⟨h3, h4⟩
    · rw [← heq2, ← heqs]

theorem meetingCandidates_pairwise (offset1 offset2 : Int) (bhs bhe : Nat) :
    (meetingCandidates offset1 offset2 bhs bhe).Pairwise (fun x y => x.hour1 < y.hour1) := by
  unfold meetingCandidates
  rw [List.pairwise_filterMap, List.pairwise_map]
  refine (List.pairwise_lt_range (bhe - bhs)).imp ?_
  intro k k2 hkk s hs s2 hs2
  simp only [Option.mem_def, Option.ite_none_right_eq_some, Option.some.injEq] at hs hs2
  rw [← hs.2, ← hs2.2]
  simpa using hkk

/-- C9.  For every pair of timezone offsets and every business-hours
window: the score of the source equals the score as the claim words it;
the result holds at most five suggestions; every suggestion pairs a whole
hour of the first window with its converted hour, which lies in the
second window, and carries the source score; the list is sorted by
descending score, with equal scores ordered by ascending first-zone hour
(the stable sort keeps enumeration order); and every surviving candidate
pair left out of the result scores no higher than any returned
suggestion. -/
theorem c9_suggest_meeting_times (offset1 offset2 : Int) (bhs bhe : Nat) :
    (∀ h1 h2 : Nat, calculateTimeScore h1 h2 = claimScore h1 + claimScore h2) ∧
      (suggestMeetingTimes offset1 offset2 bhs bhe).length ≤ 5 ∧
      (∀ s ∈ suggestMeetingTimes offset1 offset2 bhs bhe,
        bhs ≤ s.hour1 ∧ s.hour1 < bhe ∧ s.hour2 = hourInZone2 offset1 offset2 s.hour1 ∧
          bhs ≤ s.hour2 ∧ s.hour2 < bhe ∧ s.score = calculateTimeScore s.hour1 s.hour2) ∧
      (suggestMeetingTimes offset1 offset2 bhs bhe).Pairwise
        (fun a b => b.score ≤ a.score ∧ (a.score = b.score → a.hour1 < b.hour1)) ∧
      (∀ s ∈ suggestMeetingTimes offset1 offset2 bhs bhe,
        ∀ c ∈ meetingCandidates offset1 offset2 bhs bhe,
          c ∉ suggestMeetingTimes offset1 offset2 bhs bhe → c.score ≤ s.score) := by
  have htrans : ∀ a b c : TimeSuggestion, decide (b.score ≤ a.score) = true →
      decide (c.score ≤ b.score) = true → decide (c.score ≤ a.score) = true := by
    intro a b c hab hbc
    simp only [decide_eq_true_eq] at *
    exact le_trans hbc hab
  have htotal : ∀ a b : TimeSuggestion,
      (decide (b.score ≤ a.score) || decide (a.score ≤ b.score)) = true := by
    intro a b
    simpa using le_total b.score a.score
  have hS : suggestMeetingTimes offset1 offset2 bhs bhe =
      ((meetingCandidates offset1 offset2 bhs bhe).mergeSort
        fun a b => decide (b.score ≤ a.score)).take 5 := rfl
  have hperm := List.mergeSort_perm (meetingCandidates offset1 offset2 bhs bhe)
    (fun a b => decide (b.score ≤ a.score))
  have hsorted := List.sorted_mergeSort htrans htotal
    (meetingCandidates offset1 offset2 bhs bhe)
  refine ⟨?_, ?_, ?_, ?_, ?_⟩
  · intro h1 h2
    have hside : ∀ h : Nat, (if 10 ≤ h ∧ h ≤ 16 then (1 : ℚ) else 1 / 2) +
        (if h < 9 then -(1 / 2) else 0) + (if 17 < h then -(1 / 2) else 0) = claimScore h := by
      intro h
      unfold claimScore
      split_ifs <;> first | (exfalso; omega) | norm_num
    simp only [calculateTimeScore]
    rw [← hside h1, ← hside h2]
    ring
  · rw [hS, List.length_take]
    exact Nat.min_le_left _ _
  · intro s hs
    rw [hS] at hs
    exact mem_meetingCandidates.mp (hperm.mem_iff.mp (List.mem_of_mem_take hs))
  · rw [hS, List.pairwise_iff_forall_sublist]
    intro a b hsubp
    have hsubL := hsubp.trans (List.take_sublist 5 _)
    have hle : decide (b.score ≤ a.score) = true :=
      List.pairwise_iff_forall_sublist.mp hsorted hsubL
    refine ⟨by simpa using hle, ?_⟩
    intro hscore
    have hpairC := meetingCandidates_pairwise offset1 offset2 bhs bhe
    have hnodupC : (meetingCandidates offset1 offset2 bhs bhe).Pairwise (· ≠ ·) :=
      hpairC.imp fun hlt heq => absurd (heq ▸ hlt) (lt_irrefl _)
    have hnodupL : ((meetingCandidates offset1 offset2 bhs bhe).mergeSort
        fun a b => decide (b.score ≤ a.score)).Pairwise (· ≠ ·) :=
      hperm.symm.nodup hnodupC
    have haC : a ∈ meetingCandidates offset1 offset2 bhs bhe :=
      hperm.mem_iff.mp (hsubL.subset (by simp))
    have hbC : b ∈ meetingCandidates offset1 offset2 bhs bhe :=
      hperm.mem_iff.mp (hsubL.subset (by simp))
    have hne : a ≠ b := List.pairwise_iff_forall_sublist.mp hnodupL hsubL
    rcases pairwise_mem_cases hpairC haC hbC with heq | hlt | hgt
    · exact absurd heq hne
    · exact hlt
    · exfalso
      have hpair := pair_sublist_of_pairwise
        (R := fun x y : TimeSuggestion => x.hour1 < y.hour1)
        (fun x y hxy hyx => by omega) hpairC hbC haC hgt
      have hba := List.pair_sublist_mergeSort htrans htotal
        (by simpa using le_of_eq hscore) hpair
      exact hne (eq_of_pair_sublists hnodupL hsubL hba)
  · intro s hs c hcC hcnot
    rw [hS] at hs hcnot
    have hcL := hperm.mem_iff.mpr hcC
    have hcapp : c ∈ ((meetingCandidates offset1 offset2 bhs bhe).mergeSort
        fun a b => decide (b.score ≤ a.score)).take 5 ++
        ((meetingCandidates offset1 offset2 bhs bhe).mergeSort
          fun a b => decide (b.score ≤ a.score)).drop 5 := by
      rw [List.take_append_drop]
      exact hcL
    have hcdrop : c ∈ ((meetingCandidates offset1 offset2 bhs bhe).mergeSort
        fun a b => decide (b.score ≤ a.score)).drop 5 := by
      rcases List.mem_append.mp hcapp with h | h
      · exact absurd h hcnot
      · exact h
    have happ : List.Pairwise (fun a b => decide (b.score ≤ a.score) = true)
        (((meetingCandidates offset1 offset2 bhs bhe).mergeSort
            fun a b => decide (b.score ≤ a.score)).take 5 ++
          ((meetingCandidates offset1 offset2 bhs bhe).mergeSort
            fun a b => decide (b.score ≤ a.score)).drop 5) := by
      rw [List.take_append_drop]
      exact hsorted
    simpa using (List.pairwise_append.mp happ).2.2 s hs c hcdrop

/-- Witness for C9 at equal offsets and the default business hours: the
result holds at most five suggestions. -/
theorem c9_suggest_meeting_times_witness :
    (suggestMeetingTimes 0 0 9 17).length ≤ 5 :=
  (c9_suggest_meeting_times 0 0 9 17).2.1
